import Mathlib

/- Shallow embedding of the scrollback text buffer and viewport engine of
pconsole (src/pconsole/console.py).  Text is modelled as `List Char`; the
Python floats of the frame-geometry computation are modelled as rationals;
raised Python exceptions are modelled as an explicit error component next to
the state reached when the exception left the function. -/

namespace Pconsole

/-- RGBA color (Panda3D `Vec4`), carried through the engine unchanged. -/
structure RGBA where
  r : ℚ
  g : ℚ
  b : ℚ
  a : ℚ
deriving DecidableEq, Repr

/-- Default foreground color of `_ConsoleOutput` and of a fresh visible line
(console.py lines 119-127 and 240). -/
def whiteColor : RGBA := ⟨1, 1, 1, 1⟩

/-- Python `output.split('\n')` (console.py line 249): split at newline
characters, keeping empty pieces; the empty text yields one empty piece. -/
def splitNl : List Char → List (List Char)
  | [] => [[]]
  | c :: rest =>
    if c = '\n' then [] :: splitNl rest
    else (c :: (splitNl rest).headD []) :: (splitNl rest).tail

/-- The chunking comprehension of console.py lines 251-252,
`[x[i:i+w] for i in range(0, len(x), w)]`, for a nonnegative width:
`(n + w - 1) / w` counts the indices `0, w, 2w, ...` below `n`. -/
def chunks (w : ℕ) (s : List Char) : List (List Char) :=
  (List.range ((s.length + w - 1) / w)).map (fun i => (s.drop (i * w)).take w)

/-- console.py lines 249-252: split the output on newlines, then chunk every
resulting piece to width `w`. -/
def wrap (w : ℕ) (t : List Char) : List (List (List Char)) :=
  (splitNl t).map (chunks w)

/-- The same comprehension with an arbitrary Python int as `self._maxsize`:
`range(0, len(x), 0)` raises ValueError (`none`), and a negative step makes
`range(0, len(x), step)` empty, so every chunk list is empty. -/
def pyChunks (m : ℤ) (s : List Char) : Option (List (List Char)) :=
  if m = 0 then none
  else if m < 0 then some []
  else some (chunks m.toNat s)

/-- Python `int()` applied to a number: truncation toward zero. -/
def pytrunc (q : ℚ) : ℤ := if 0 ≤ q then ⌊q⌋ else ⌈q⌉

/-- `Console._recomputeFrame` (console.py lines 341-351).  The glyph width is
measured by the host toolkit on a ten-character sample; the measured sample
width `b` is an external input.  No validation is performed on the results:
`maxsize = int(resframesize[0] / (b / 10))` and
`maxlines = int((resframesize[1] - 0.12) / textscale) + 1` are returned as-is. -/
def recomputeFrame (resframe0 resframe1 textscale b : ℚ) : ℤ × ℤ :=
  let width := b / 10
  (pytrunc (resframe0 / width), pytrunc ((resframe1 - 12 / 100) / textscale) + 1)

/-- A visible line of the viewport: the fields of an `OnscreenLine` that the
engine reads or writes (text, foreground color, owning saved-line index,
character interval). -/
structure OnscreenLine where
  text : List Char
  fg : RGBA
  lineIndex : Option ℕ
  charInterval : Option (ℤ × ℤ)
deriving DecidableEq, Repr

/-- Modelled from the spec: the `OnscreenLine` constructor lives in
pconsole/lines.py, which is not part of src.  console.py line 119 builds each
fresh line with empty text, white foreground and `line=None`; a fresh line has
no owning entry and no character interval. -/
def emptyLine : OnscreenLine := ⟨[], whiteColor, none, none⟩

/-- A saved logical line: `(text, color)` as appended to `self._savedlines`. -/
abbrev SavedLine := List Char × RGBA

/-- The visible-line record written at slot 0 for chunk `i` of the chunk list
`d` (console.py lines 262-270): the chunk text, the call's color, the owning
saved-line index, and the cumulative character interval
`[len(previous), len(previous) + len(chunk) - 1]`. -/
def lineOfChunk (d : List (List Char)) (i : ℕ) (c : RGBA) (idx : ℕ) : OnscreenLine :=
  let previous := (d.take i).flatten
  ⟨d.getD i [], c, some idx,
    some ((previous.length : ℤ), (previous.length : ℤ) + ((d.getD i []).length : ℤ) - 1)⟩

/-- The shift loop of console.py lines 257-263: every slot receives the
content of the slot before it (the oldest slot's content is discarded) and the
new line is written at slot 0. -/
def shiftIn (L : ℕ) (line : OnscreenLine) (v : List OnscreenLine) : List OnscreenLine :=
  (line :: v).take L

/-- One iteration of `for discretized in text` in add mode (console.py lines
254-270): append the group's concatenated chunks with the color to the saved
lines, then shift each chunk of the group into slot 0 in order. -/
def addGroup (L : ℕ) (c : RGBA) (sv : List SavedLine × List OnscreenLine)
    (d : List (List Char)) : List SavedLine × List OnscreenLine :=
  let saved := sv.1 ++ [(d.flatten, c)]
  (saved,
    (List.range d.length).foldl
      (fun v i => shiftIn L (lineOfChunk d i c (saved.length - 1)) v) sv.2)

/-- The visible lines contributed by one saved line `e` stored at index `idx`:
its chunk list with cumulative character intervals. -/
def entryLines (w : ℕ) (idx : ℕ) (e : SavedLine) : List OnscreenLine :=
  (List.range (chunks w e.1).length).map (fun i => lineOfChunk (chunks w e.1) i e.2 idx)

/-- All visible lines produced by re-wrapping the saved lines in order,
starting at entry index `idx`. -/
def allLinesFrom (w : ℕ) (idx : ℕ) : List SavedLine → List OnscreenLine
  | [] => []
  | e :: rest => entryLines w idx e ++ allLinesFrom w (idx + 1) rest

/-- All visible lines produced by re-wrapping every saved line in order. -/
def allLines (w : ℕ) (saved : List SavedLine) : List OnscreenLine :=
  allLinesFrom w 0 saved

/-- A viewport of `L` slots holding the last `L` of the given lines, newest at
slot 0, remaining slots cleared. -/
def vp (L : ℕ) (lines : List OnscreenLine) : List OnscreenLine :=
  (lines.reverse ++ List.replicate L emptyLine).take L

/-- Modelled from the spec: `redistribute` lives in pconsole/lines.py, which
is not part of src.  Per spec section 4.3 it rebuilds all `maxLines` slots as
the last `maxLines` segments obtained by re-running the Line Wrapper (the
chunking of console.py) over every saved entry, slot 0 holding the newest
segment and slots beyond the available segments left cleared. -/
def redistribute (w L : ℕ) (saved : List SavedLine) : List OnscreenLine :=
  vp L (allLines w saved)

/-- The two output modes of `_ConsoleOutput` (the `mode` string argument). -/
inductive Mode
  | add
  | edit
deriving DecidableEq, Repr

/-- Python exceptions that can leave the modelled operations. -/
inductive PyErr
  | indexError
  | valueError
deriving DecidableEq, Repr

/-- The console state touched by the scrollback engine (console.py lines
98-101): saved output lines, the visible-line slots, the submitted-input
history, the input-history cursor and the scroll index. -/
structure CState where
  savedlines : List SavedLine
  visible : List OnscreenLine
  inputlines : List (List Char)
  callbackindex : ℤ
  scrollingindex : ℤ
deriving DecidableEq, Repr

/-- Console state right after `create`: no saved lines, `L` fresh visible
lines, no input history, cursor -1, scroll index 0 (console.py lines 98-127). -/
def initState (L : ℕ) : CState :=
  { savedlines := [], visible := List.replicate L emptyLine, inputlines := [],
    callbackindex := -1, scrollingindex := 0 }

/-- The edit-mode slot loop body (console.py lines 276-280): slot `i` receives
chunk `n-1-i` of the group, the call's color and the owning index, while
`charInterval` is left as it was ("charinterval not handled").  Reading a slot
at or past the number of visible lines raises IndexError. -/
def editGo (c : RGBA) (idx : ℕ) (d : List (List Char)) :
    List OnscreenLine → List ℕ → List OnscreenLine × Option PyErr
  | v, [] => (v, none)
  | v, i :: rest =>
    if i < v.length then
      editGo c idx d
        (v.set i ⟨d.getD (d.length - i - 1) [], c, some idx, (v.getD i emptyLine).charInterval⟩)
        rest
    else (v, some .indexError)

/-- `for discretized in text` in edit mode (console.py lines 274-280); an
IndexError raised inside a group stops the remaining groups. -/
def editGroups (c : RGBA) (idx : ℕ) :
    List OnscreenLine → List (List (List Char)) → List OnscreenLine × Option PyErr
  | v, [] => (v, none)
  | v, d :: rest =>
    match editGo c idx d v (List.range d.length) with
    | (v2, none) => editGroups c idx v2 rest
    | (v2, some e) => (v2, some e)

/-- `Console._ConsoleOutput` (console.py lines 240-281) for string input
(`output = None` is `none`; the bytes-decoding and `CMD_type` branches touch
no console state).  It first re-runs `redistribute` over the current saved
lines, returns on `None`, splits and chunks the output, then either appends
and shifts (add) or overwrites the last saved line and refills the low slots
(edit); `savedlines[-1] = ...` on an empty list raises IndexError.  The second
component is the exception leaving the call, if any; state mutations made
before the raise are kept, as in Python. -/
def consoleOutput (w L : ℕ) (st : CState) (output : Option (List Char)) (c : RGBA)
    (mode : Mode) : CState × Option PyErr :=
  let v0 := redistribute w L st.savedlines
  match output with
  | none => ({ st with visible := v0 }, none)
  | some out =>
    let text := wrap w out
    match mode with
    | .add =>
      let sv := text.foldl (addGroup L c) (st.savedlines, v0)
      ({ st with savedlines := sv.1, visible := sv.2 }, none)
    | .edit =>
      if st.savedlines = [] then
        ({ st with visible := v0 }, some .indexError)
      else
        let saved := st.savedlines.dropLast ++ [(out, c)]
        let r := editGroups c (saved.length - 1) v0 text
        ({ st with savedlines := saved, visible := r.1 }, r.2)

/-- A sequence of add-mode output calls starting from the fresh console. -/
def runAdds (w L : ℕ) (ops : List (List Char × RGBA)) : CState :=
  ops.foldl (fun st oc => (consoleOutput w L st (some oc.1) oc.2 .add).1) (initState L)

/-- Python list indexing `l[i]`: negative indices count from the end; an index
out of range on either side raises IndexError (`none`). -/
def pyIndex {α : Type} (l : List α) (i : ℤ) : Option α :=
  if 0 ≤ i then l.get? i.toNat
  else if -i ≤ (l.length : ℤ) then l.get? (l.length - (-i).toNat) else none

/-- `Console._callBack` (console.py lines 318-332): arrow-key history
navigation over `inputlines` reversed; `key = true` is the up arrow.  The text
entered into the input field is returned as `some`; `none` means the entry was
left untouched, including when the IndexError of an out-of-range lookup is
swallowed by the bare `except` after the cursor was already moved. -/
def callBack (inputlines : List (List Char)) (callbackindex : ℤ) (key : Bool) :
    ℤ × Option (List Char) :=
  let invertedInput := inputlines.reverse
  if key then
    if callbackindex < (invertedInput.length : ℤ) then
      (callbackindex + 1, pyIndex invertedInput (callbackindex + 1))
    else (callbackindex, none)
  else
    if 0 ≤ callbackindex then
      (callbackindex - 1, pyIndex ([[]] ++ invertedInput) (callbackindex - 1))
    else (callbackindex, none)

/-- Modelled from the spec: `totalSegmentCount` (History Store, spec section
4.2) is the sum of segment counts across all entries; its implementation lives
in pconsole/lines.py, which is not part of src. -/
def totalSegmentCount (w : ℕ) (saved : List SavedLine) : ℕ :=
  (saved.map (fun e => (chunks w e.1).length)).sum

/-- The upper end of the valid scroll range, `max(0, totalSegmentCount() - maxLines)`. -/
def scrollMax (saved : List SavedLine) (w L : ℕ) : ℤ :=
  max 0 ((totalSegmentCount w saved : ℤ) - (L : ℤ))

/-- Modelled from the spec: `displace` lives in pconsole/lines.py, which is
not part of src.  Per spec section 4.4 the scroll index moves by `sign` and is
clamped to `[0, max(0, totalSegmentCount() - maxLines)]`; the re-rendering of
the viewport is not modelled beyond the index. -/
def displace (saved : List SavedLine) (w L : ℕ) (scrollingindex sign : ℤ) : ℤ :=
  max 0 (min (scrollingindex + sign) (scrollMax saved w L))

/-- `Console._scroll` (console.py lines 283-286): the sign is
`(-1)**int(direction+1)`, so `true` (wheel up, toward older content) moves by
+1 and `false` by -1. -/
def consoleScroll (w L : ℕ) (st : CState) (direction : Bool) : CState :=
  let sign : ℤ := (-1 : ℤ) ^ ((if direction then 1 else 0) + 1)
  { st with scrollingindex := displace st.savedlines w L st.scrollingindex sign }

/- ------------------------------------------------------------------ -/
/- Basic properties of the chunker and the newline splitter.          -/
/- ------------------------------------------------------------------ -/

theorem chunks_nil (w : ℕ) : chunks w [] = [] := by
  cases w with
  | zero => rfl
  | succ m =>
    simp only [chunks, List.length_nil, Nat.zero_add, Nat.succ_sub_one]
    rw [Nat.div_eq_of_lt (Nat.lt_succ_self m)]
    rfl

theorem chunks_cons (w : ℕ) (hw : 0 < w) (s : List Char) (hs : s ≠ []) :
    chunks w s = s.take w :: chunks w (s.drop w) := by
  have hn : 1 ≤ s.length := List.length_pos.mpr hs
  have hcount : (s.length + w - 1) / w = ((s.drop w).length + w - 1) / w + 1 := by
    rw [List.length_drop]
    rcases le_or_lt s.length w with hle | hlt
    · have h1 : s.length - w = 0 := Nat.sub_eq_zero_of_le hle
      rw [h1]
      have h2 : (0 + w - 1) / w = 0 := by
        apply Nat.div_eq_of_lt; omega
      rw [h2]
      apply Nat.div_eq_of_lt_le <;> omega
    · have h3 : s.length + w - 1 = (s.length - w + w - 1) + w := by omega
      rw [h3, Nat.add_div_right _ hw]
  rw [chunks, hcount, List.range_succ_eq_map, List.map_cons, List.map_map]
  congr 1
  · rw [Nat.zero_mul, List.drop_zero]
  · rw [chunks]
    apply List.map_congr_left
    intro i _
    simp only [Function.comp_apply]
    rw [List.drop_drop, Nat.succ_mul, Nat.add_comm (i * w) w]

theorem chunks_flatten (w : ℕ) (hw : 0 < w) (s : List Char) : (chunks w s).flatten = s := by
  have key : ∀ (n : ℕ) (t : List Char), t.length ≤ n → (chunks w t).flatten = t := by
    intro n
    induction n with
    | zero =>
      intro t ht
      have h0 : t = [] := List.eq_nil_of_length_eq_zero (Nat.le_zero.mp ht)
      rw [h0, chunks_nil]
      rfl
    | succ n ih =>
      intro t ht
      by_cases h : t = []
      · rw [h, chunks_nil]; rfl
      · rw [chunks_cons w hw t h, List.flatten_cons, ih (t.drop w) ?_, List.take_append_drop]
        have h1 : 1 ≤ t.length := List.length_pos.mpr h
        have h2 : (t.drop w).length = t.length - w := List.length_drop w t
        omega
  exact key s.length s le_rfl

theorem chunks_single (w : ℕ) (hw : 0 < w) (s : List Char) (hs : s ≠ [])
    (hlen : s.length ≤ w) : chunks w s = [s] := by
  rw [chunks_cons w hw s hs, List.take_of_length_le hlen, List.drop_eq_nil_of_le hlen,
    chunks_nil]

theorem splitNl_ne_nil (t : List Char) : splitNl t ≠ [] := by
  cases t with
  | nil => simp [splitNl]
  | cons c rest => by_cases hc : c = '\n' <;> simp [splitNl, hc]

theorem splitNl_length (t : List Char) : (splitNl t).length = t.count '\n' + 1 := by
  induction t with
  | nil => rfl
  | cons c rest ih =>
    by_cases hc : c = '\n'
    · subst hc
      rw [splitNl, if_pos rfl]
      simp only [List.length_cons, List.count_cons_self]
      omega
    · have hne : 1 ≤ (splitNl rest).length := List.length_pos.mpr (splitNl_ne_nil rest)
      simp only [splitNl, if_neg hc, List.length_cons, List.length_tail,
        List.count_cons_of_ne (fun e => hc e.symm)]
      omega

theorem splitNl_of_not_mem (t : List Char) (h : '\n' ∉ t) : splitNl t = [t] := by
  induction t with
  | nil => rfl
  | cons c rest ih =>
    have hc : ¬ (c = '\n') := fun e => h (e ▸ List.mem_cons_self c rest)
    have hr : '\n' ∉ rest := fun m => h (List.mem_cons_of_mem c m)
    simp [splitNl, if_neg hc, ih hr]

/- ------------------------------------------------------------------ -/
/- Claim C4: wrapping is lossless on newline-free text.               -/
/- ------------------------------------------------------------------ -/

/-- Claim C4: for every text without newline characters and every positive
wrap width, concatenating in order all segments produced by `wrap`
reconstructs the text exactly. -/
theorem wrap_lossless (w : ℕ) (t : List Char) (hw : 0 < w) (hn : '\n' ∉ t) :
    ((wrap w t).flatten).flatten = t := by
  rw [wrap, splitNl_of_not_mem t hn, List.map_cons, List.map_nil, List.flatten_cons,
    List.flatten_nil, List.append_nil, chunks_flatten w hw t]

/-- Witness for C4 at `t = "abc"`, `w = 2`. -/
theorem wrap_lossless_witness :
    0 < 2 ∧ '\n' ∉ ['a', 'b', 'c'] ∧
      ((wrap 2 ['a', 'b', 'c']).flatten).flatten = ['a', 'b', 'c'] :=
  ⟨by decide, by decide, wrap_lossless 2 ['a', 'b', 'c'] (by decide) (by decide)⟩

/- ------------------------------------------------------------------ -/
/- Claim C3: group count and per-sub-line chunk count.                -/
/- ------------------------------------------------------------------ -/

/-- Claim C3 counterexample: at `t = "\n"` (one newline) and `maxWidth = 3`
the wrapper does produce two sub-line groups, but the two empty sub-strings
yield zero chunks each — not "exactly one chunk" as the claim states. -/
theorem wrap_empty_group_cex :
    (wrap 3 ['\n']).map List.length = [0, 0] ∧
    ¬ ∀ g ∈ splitNl ['\n'], (chunks 3 g).length = 1 := by decide

/-- Claim C3 (amended): for positive width, `wrap` produces exactly `k+1`
sub-line groups for `k` newline characters, and a NON-empty sub-string of at
most `maxWidth` characters yields exactly one chunk; an empty sub-string (as
arising from consecutive newlines) yields zero chunks, hence an empty
sub-line occupies no rendered row. -/
theorem wrap_groups (w : ℕ) (t : List Char) (hw : 0 < w) :
    (wrap w t).length = t.count '\n' + 1 ∧
    ∀ g ∈ splitNl t,
      (g ≠ [] → g.length ≤ w → chunks w g = [g]) ∧ (g = [] → chunks w g = []) := by
  refine ⟨?_, ?_⟩
  · rw [wrap, List.length_map, splitNl_length]
  · intro g _
    exact ⟨fun h1 h2 => chunks_single w hw g h1 h2,
      fun h => by rw [h]; exact chunks_nil w⟩

/-- Witness for the amended C3 at `t = "a\n\nbc"`, `w = 2`. -/
theorem wrap_groups_witness :
    0 < 2 ∧
      ((wrap 2 ['a', '\n', '\n', 'b', 'c']).length
          = ['a', '\n', '\n', 'b', 'c'].count '\n' + 1 ∧
        ∀ g ∈ splitNl ['a', '\n', '\n', 'b', 'c'],
          (g ≠ [] → g.length ≤ 2 → chunks 2 g = [g]) ∧ (g = [] → chunks 2 g = [])) :=
  ⟨by decide, wrap_groups 2 ['a', '\n', '\n', 'b', 'c'] (by decide)⟩

/- ------------------------------------------------------------------ -/
/- Claim C1: fast-path shifting refines full redistribution.          -/
/- ------------------------------------------------------------------ -/

theorem cons_take_take {α : Type} (a : α) (l : List α) (n : ℕ) :
    (a :: l.take n).take n = (a :: l).take n := by
  cases n with
  | zero => rfl
  | succ n =>
    simp only [List.take_succ_cons, List.take_take]
    rw [min_eq_left (Nat.le_succ n)]

theorem shiftIn_vp (L : ℕ) (l : OnscreenLine) (ls : List OnscreenLine) :
    shiftIn L l (vp L ls) = vp L (ls ++ [l]) := by
  simp only [shiftIn, vp, List.reverse_append, List.reverse_cons, List.reverse_nil,
    List.nil_append, List.cons_append]
  rw [cons_take_take]

theorem foldShift (L : ℕ) (ds : List OnscreenLine) :
    ∀ ls : List OnscreenLine,
      ds.foldl (fun v l => shiftIn L l v) (vp L ls) = vp L (ls ++ ds) := by
  induction ds with
  | nil => intro ls; rw [List.foldl_nil, List.append_nil]
  | cons d ds ih =>
    intro ls
    rw [List.foldl_cons, shiftIn_vp, ih (ls ++ [d]), List.append_assoc,
      List.singleton_append]

theorem allLinesFrom_append (w : ℕ) (S : List SavedLine) (e : SavedLine) :
    ∀ i : ℕ, allLinesFrom w i (S ++ [e]) = allLinesFrom w i S ++ entryLines w (i + S.length) e := by
  induction S with
  | nil => intro i; simp [allLinesFrom]
  | cons x S ih =>
    intro i
    have h : i + 1 + S.length = i + (S.length + 1) := by omega
    show entryLines w i x ++ allLinesFrom w (i + 1) (S ++ [e])
        = (entryLines w i x ++ allLinesFrom w (i + 1) S) ++ entryLines w (i + (S.length + 1)) e
    rw [ih (i + 1), h, ← List.append_assoc]

theorem addGroup_vp (w L : ℕ) (hw : 0 < w) (c : RGBA) (S : List SavedLine) (x : List Char) :
    addGroup L c (S, vp L (allLines w S)) (chunks w x)
      = (S ++ [(x, c)], vp L (allLines w (S ++ [(x, c)]))) := by
  have hx : (chunks w x).flatten = x := chunks_flatten w hw x
  have hlen : (S ++ [(x, c)]).length - 1 = S.length := by
    rw [List.length_append]; rfl
  simp only [addGroup, hx, hlen]
  refine congrArg (fun v => (S ++ [(x, c)], v)) ?_
  rw [← List.foldl_map (fun i => lineOfChunk (chunks w x) i c S.length)
      (fun v l => shiftIn L l v), foldShift]
  have h2 : allLines w (S ++ [(x, c)])
      = allLines w S ++ entryLines w (0 + S.length) (x, c) :=
    allLinesFrom_append w S (x, c) 0
  rw [h2, Nat.zero_add]
  rfl

theorem consoleAdd_spec (w L : ℕ) (hw : 0 < w) (st : CState) (out : List Char) (c : RGBA) :
    (consoleOutput w L st (some out) c .add).1.savedlines
        = st.savedlines ++ (splitNl out).map (fun x => (x, c)) ∧
    (consoleOutput w L st (some out) c .add).1.visible
        = redistribute w L ((consoleOutput w L st (some out) c .add).1.savedlines) := by
  have main : ∀ (gs : List (List Char)) (S : List SavedLine),
      (gs.map (chunks w)).foldl (addGroup L c) (S, vp L (allLines w S))
        = (S ++ gs.map (fun x => (x, c)), vp L (allLines w (S ++ gs.map (fun x => (x, c))))) := by
    intro gs
    induction gs with
    | nil => intro S; simp
    | cons g gs ih =>
      intro S
      rw [List.map_cons, List.foldl_cons, addGroup_vp w L hw c S g, ih (S ++ [(g, c)]),
        List.append_assoc, List.singleton_append, List.map_cons]
  simp only [consoleOutput, wrap, redistribute]
  rw [main (splitNl out) st.savedlines]
  exact ⟨rfl, rfl⟩

/-- Claim C1: after any sequence of add-mode appends at fixed positive
`maxWidth` and `maxLines`, the viewport produced by the fast-path shifting
(every new segment pushed into slot 0) is identical, slot by slot — text,
color, owning entry index and character interval — to the viewport produced
by full redistribution over the same History Store with the same
`(maxWidth, maxLines)`. -/
theorem fastpath_append_equals_redistribute (w L : ℕ) (hw : 0 < w) (hL : 0 < L)
    (ops : List (List Char × RGBA)) :
    (runAdds w L ops).visible = redistribute w L (runAdds w L ops).savedlines := by
  have step : ∀ (st : CState) (oc : List Char × RGBA),
      ((consoleOutput w L st (some oc.1) oc.2 .add).1).visible
        = redistribute w L ((consoleOutput w L st (some oc.1) oc.2 .add).1).savedlines :=
    fun st oc => (consoleAdd_spec w L hw st oc.1 oc.2).2
  have main : ∀ (ops : List (List Char × RGBA)) (st : CState),
      st.visible = redistribute w L st.savedlines →
      (ops.foldl (fun s oc => (consoleOutput w L s (some oc.1) oc.2 .add).1) st).visible
        = redistribute w L
            (ops.foldl (fun s oc => (consoleOutput w L s (some oc.1) oc.2 .add).1) st).savedlines := by
    intro ops
    induction ops with
    | nil => intro st h; exact h
    | cons oc ops ih => intro st _; exact ih _ (step st oc)
  have hinit : (initState L).visible = redistribute w L (initState L).savedlines := by
    simp [initState, redistribute, allLines, allLinesFrom, vp, List.take_replicate]
  exact main ops (initState L) hinit

/-- Witness for C1: two appends (the second with an embedded newline) at
`maxWidth = 3`, `maxLines = 2`. -/
theorem fastpath_append_witness :
    0 < 3 ∧ 0 < 2 ∧
      (runAdds 3 2 [(['a', 'b', 'c', 'd'], whiteColor), (['x', '\n'], whiteColor)]).visible
        = redistribute 3 2
            (runAdds 3 2 [(['a', 'b', 'c', 'd'], whiteColor), (['x', '\n'], whiteColor)]).savedlines :=
  ⟨by decide, by decide,
    fastpath_append_equals_redistribute 3 2 (by decide) (by decide)
      [(['a', 'b', 'c', 'd'], whiteColor), (['x', '\n'], whiteColor)]⟩

/- ------------------------------------------------------------------ -/
/- Claim C2: the "hello\nworld" scenario.                             -/
/- ------------------------------------------------------------------ -/

def helloWorldText : List Char :=
  ['h', 'e', 'l', 'l', 'o', '\n', 'w', 'o', 'r', 'l', 'd']

/-- Claim C2 counterexample: appending "hello\nworld" at width 3 with 4 lines
fills the four slots, but they do not all carry one entry index: the add path
stores each newline-separated sub-line as its own saved entry, so the slots
carry indices 1, 1, 0, 0. -/
theorem helloWorld_entryIndex_cex :
    ((consoleOutput 3 4 (initState 4) (some helloWorldText) whiteColor .add).1.visible.map
        OnscreenLine.lineIndex = [some 1, some 1, some 0, some 0]) ∧
    ¬ ∃ k : ℕ,
      (consoleOutput 3 4 (initState 4) (some helloWorldText) whiteColor .add).1.visible.map
          OnscreenLine.lineIndex = [some k, some k, some k, some k] := by
  have h1 : (consoleOutput 3 4 (initState 4) (some helloWorldText) whiteColor .add).1.visible.map
      OnscreenLine.lineIndex = [some 1, some 1, some 0, some 0] := by decide
  refine ⟨h1, ?_⟩
  rintro ⟨k, hk⟩
  rw [h1] at hk
  simp only [List.cons.injEq, Option.some.injEq] at hk
  omega

/-- Claim C2 (amended): appending "hello\nworld" with `maxWidth = 3` and
`maxLines ≥ 4` fills four slots with the segments "ld", "wor", "lo", "hel"
(slot 0 newest) and correct cumulative character intervals, but the two
"hello" segments carry entry index 0 and the two "world" segments entry
index 1: each newline-separated sub-line is stored as its own logical entry,
so the four slots do not share one entry index. -/
theorem helloWorld_slots (L : ℕ) (hL : 4 ≤ L) :
    (consoleOutput 3 L (initState L) (some helloWorldText) whiteColor .add).1.savedlines
      = [(['h', 'e', 'l', 'l', 'o'], whiteColor), (['w', 'o', 'r', 'l', 'd'], whiteColor)] ∧
    (consoleOutput 3 L (initState L) (some helloWorldText) whiteColor .add).1.visible.take 4
      = [⟨['l', 'd'], whiteColor, some 1, some (3, 4)⟩,
         ⟨['w', 'o', 'r'], whiteColor, some 1, some (0, 2)⟩,
         ⟨['l', 'o'], whiteColor, some 0, some (3, 4)⟩,
         ⟨['h', 'e', 'l'], whiteColor, some 0, some (0, 2)⟩] := by
  obtain ⟨hs, hv⟩ := consoleAdd_spec 3 L (by decide) (initState L) helloWorldText whiteColor
  have hsaved : (consoleOutput 3 L (initState L) (some helloWorldText) whiteColor .add).1.savedlines
      = [(['h', 'e', 'l', 'l', 'o'], whiteColor), (['w', 'o', 'r', 'l', 'd'], whiteColor)] := by
    rw [hs]; rfl
  refine ⟨hsaved, ?_⟩
  rw [hv, hsaved]
  have hlines : allLines 3
      [(['h', 'e', 'l', 'l', 'o'], whiteColor), (['w', 'o', 'r', 'l', 'd'], whiteColor)]
      = [⟨['h', 'e', 'l'], whiteColor, some 0, some (0, 2)⟩,
         ⟨['l', 'o'], whiteColor, some 0, some (3, 4)⟩,
         ⟨['w', 'o', 'r'], whiteColor, some 1, some (0, 2)⟩,
         ⟨['l', 'd'], whiteColor, some 1, some (3, 4)⟩] := by decide
  rw [redistribute, hlines, vp, List.take_take, min_eq_left hL]
  rfl

/-- Witness for the amended C2 at `maxLines = 5`. -/
theorem helloWorld_slots_witness :
    4 ≤ 5 ∧
      ((consoleOutput 3 5 (initState 5) (some helloWorldText) whiteColor .add).1.savedlines
        = [(['h', 'e', 'l', 'l', 'o'], whiteColor), (['w', 'o', 'r', 'l', 'd'], whiteColor)] ∧
      (consoleOutput 3 5 (initState 5) (some helloWorldText) whiteColor .add).1.visible.take 4
        = [⟨['l', 'd'], whiteColor, some 1, some (3, 4)⟩,
           ⟨['w', 'o', 'r'], whiteColor, some 1, some (0, 2)⟩,
           ⟨['l', 'o'], whiteColor, some 0, some (3, 4)⟩,
           ⟨['h', 'e', 'l'], whiteColor, some 0, some (0, 2)⟩]) :=
  ⟨by decide, helloWorld_slots 5 (by decide)⟩

/- ------------------------------------------------------------------ -/
/- Claim C5: replaceLast (edit mode) on empty and non-empty history.  -/
/- ------------------------------------------------------------------ -/

/-- Claim C5: edit-mode `replaceLast` with an empty History Store fails —
`savedlines[-1] = ...` raises on the empty list (the spec's
EmptyHistoryError names exactly this empty-history failure) — and leaves the
saved lines unchanged; with a non-empty store it overwrites the most recent
saved entry in place. -/
theorem replaceLast_spec (w L : ℕ) (st : CState) (out : List Char) (c : RGBA) :
    (st.savedlines = [] →
       (consoleOutput w L st (some out) c .edit).2 = some .indexError ∧
       (consoleOutput w L st (some out) c .edit).1.savedlines = st.savedlines) ∧
    (st.savedlines ≠ [] →
       (consoleOutput w L st (some out) c .edit).1.savedlines
         = st.savedlines.dropLast ++ [(out, c)]) := by
  constructor
  · intro h
    simp [consoleOutput, h]
  · intro h
    simp [consoleOutput, h]

/-- Witness for C5: the empty store errors and keeps no entry; a one-entry
store gets its single entry overwritten. -/
theorem replaceLast_witness :
    (consoleOutput 2 2 (initState 2) (some ['x']) whiteColor .edit).2
        = some PyErr.indexError ∧
    (consoleOutput 2 2 { initState 2 with savedlines := [(['a'], whiteColor)] }
        (some ['x']) whiteColor .edit).1.savedlines = [(['x'], whiteColor)] := by
  constructor
  · exact ((replaceLast_spec 2 2 (initState 2) ['x'] whiteColor).1 rfl).1
  · have h := (replaceLast_spec 2 2
      { initState 2 with savedlines := [(['a'], whiteColor)] } ['x'] whiteColor).2
      (by simp)
    rw [h]
    rfl

/- ------------------------------------------------------------------ -/
/- Claim C6: no ConfigError exists; non-positive widths are accepted. -/
/- ------------------------------------------------------------------ -/

/-- Claim C6 counterexample: with the minimum 0.8-wide frame and a glyph
sample 10 units wide, `_recomputeFrame` derives wrap width 0 and returns it
with no error of any kind (silent acceptance, no ConfigError); the zero width
then makes the chunking comprehension raise ValueError at output time. -/
theorem reconfigure_no_configerror_cex :
    recomputeFrame (4 / 5) 1 (1 / 20) 10 = (0, 18) ∧ pyChunks 0 ['a'] = none := by
  constructor
  · simp only [recomputeFrame, pytrunc, Prod.mk.injEq]
    norm_num
  · rfl

/-- Claim C6 (amended): reconfiguration performs no validation — whenever the
frame is narrower than one glyph, `_recomputeFrame` silently returns wrap
width 0 (no ConfigError is raised; none exists in the code), chunking at that
width then fails with ValueError at output time, and any negative width would
silently produce no chunks at all. -/
theorem reconfigure_accepts_nonpositive (r0 r1 ts b : ℚ) (s : List Char)
    (hb : 0 < b) (h0 : 0 ≤ r0) (hlt : r0 < b / 10) :
    (recomputeFrame r0 r1 ts b).1 = 0 ∧
    pyChunks (recomputeFrame r0 r1 ts b).1 s = none ∧
    ∀ m : ℤ, m < 0 → pyChunks m s = some [] := by
  have hw : (0 : ℚ) < b / 10 := by positivity
  have h1 : (recomputeFrame r0 r1 ts b).1 = pytrunc (r0 / (b / 10)) := rfl
  have hq0 : 0 ≤ r0 / (b / 10) := div_nonneg h0 hw.le
  have hq1 : r0 / (b / 10) < 1 := (div_lt_one hw).mpr hlt
  have hz : pytrunc (r0 / (b / 10)) = 0 := by
    rw [pytrunc, if_pos hq0]
    exact Int.floor_eq_zero_iff.mpr ⟨hq0, hq1⟩
  refine ⟨h1.trans hz, ?_, ?_⟩
  · rw [h1, hz]; rfl
  · intro m hm
    rw [pyChunks, if_neg (by omega), if_pos hm]

/-- Witness for the amended C6 at `r0 = 1/2`, `b = 10`. -/
theorem reconfigure_accepts_witness :
    (0 : ℚ) < 10 ∧ (0 : ℚ) ≤ 1 / 2 ∧ (1 / 2 : ℚ) < 10 / 10 ∧
      ((recomputeFrame (1 / 2) 1 1 10).1 = 0 ∧
        pyChunks (recomputeFrame (1 / 2) 1 1 10).1 ['a'] = none ∧
        ∀ m : ℤ, m < 0 → pyChunks m ['a'] = some []) :=
  ⟨by norm_num, by norm_num, by norm_num,
    reconfigure_accepts_nonpositive (1 / 2) 1 1 10 ['a']
      (by norm_num) (by norm_num) (by norm_num)⟩

/- ------------------------------------------------------------------ -/
/- Claims C7 and C8: input-history navigation.                         -/
/- ------------------------------------------------------------------ -/

/-- Claim C7 (the code bug, evaluated): with input history ["a"] and cursor 0
the down-arrow navigation decrements the cursor to -1 but enters the OLDEST
entry "a" into the field — Python's `([''] + invertedInput)[-1]` wraps around
to the end of the list — instead of the empty string required when the cursor
becomes -1. -/
theorem moveNewer_returns_oldest_bug :
    callBack [['a']] 0 false = (-1, some ['a']) ∧
      some ['a'] ≠ some ([] : List Char) := by decide

/-- Claim C8 counterexample: at the boundary `callbackIndex = len-1` (history
["a"], cursor 0) the up-arrow is not a no-op on the cursor: the guard in the
code is `callbackindex < len(invertedInput)`, so the cursor is incremented to
1 (= len) while the failed lookup is swallowed by the bare `except`. -/
theorem moveOlder_boundary_cex :
    callBack [['a']] 0 true = (1, none) ∧ (1 : ℤ) ≠ 0 := by decide

/-- Claim C8 (amended): starting from any cursor `≥ -1`, the up-arrow
increments the cursor whenever `callbackindex < len(InputHistory)` — in
particular also at `callbackindex = len - 1`, where the entry lookup fails,
the IndexError is swallowed and the cursor is left at `len` — and it enters
the reverse-chronological entry at the new index exactly when
`callbackindex < len - 1`; beyond `len` it is a complete no-op, and it never
raises. -/
theorem moveOlder_spec (inp : List (List Char)) (ci : ℤ) (h : -1 ≤ ci) :
    (ci + 1 < (inp.length : ℤ) →
        callBack inp ci true = (ci + 1, inp.reverse.get? (ci + 1).toNat) ∧
        (inp.reverse.get? (ci + 1).toNat).isSome = true) ∧
    (ci + 1 = (inp.length : ℤ) → callBack inp ci true = (ci + 1, none)) ∧
    ((inp.length : ℤ) ≤ ci → callBack inp ci true = (ci, none)) := by
  refine ⟨?_, ?_, ?_⟩
  · intro hlt
    have hci : ci < (inp.reverse.length : ℤ) := by rw [List.length_reverse]; omega
    have hge : 0 ≤ ci + 1 := by omega
    refine ⟨?_, ?_⟩
    · simp only [callBack, if_pos hci, pyIndex, if_pos hge, if_true]
    · have hn : (ci + 1).toNat < inp.reverse.length := by
        rw [List.length_reverse]; omega
      rw [List.get?_eq_get hn]
      rfl
  · intro heq
    have hci : ci < (inp.reverse.length : ℤ) := by rw [List.length_reverse]; omega
    have hnone : inp.reverse.get? (ci + 1).toNat = none := by
      apply List.get?_eq_none.mpr
      rw [List.length_reverse]; omega
    simp only [callBack, if_pos hci, pyIndex, if_pos (show (0 : ℤ) ≤ ci + 1 by omega),
      if_true, hnone]
  · intro hge
    have hci : ¬ ci < (inp.reverse.length : ℤ) := by rw [List.length_reverse]; omega
    simp only [callBack, if_neg hci, if_true]

/-- Witness for the amended C8: history ["a", "b"], cursor 0. -/
theorem moveOlder_spec_witness :
    (-1 : ℤ) ≤ 0 ∧ callBack [['a'], ['b']] 0 true = (1, some ['a']) := by
  refine ⟨by decide, ?_⟩
  have h := ((moveOlder_spec [['a'], ['b']] 0 (by decide)).1 (by decide)).1
  rw [h]
  decide

/- ------------------------------------------------------------------ -/
/- Claim C9: scroll clamping.                                          -/
/- ------------------------------------------------------------------ -/

theorem consoleScroll_savedlines (w L : ℕ) (st : CState) (d : Bool) :
    (consoleScroll w L st d).savedlines = st.savedlines := rfl

theorem consoleScroll_true (w L : ℕ) (st : CState) :
    (consoleScroll w L st true).scrollingindex
      = max 0 (min (st.scrollingindex + 1) (scrollMax st.savedlines w L)) := by
  simp [consoleScroll, displace]

theorem consoleScroll_false (w L : ℕ) (st : CState) :
    (consoleScroll w L st false).scrollingindex
      = max 0 (min (st.scrollingindex - 1) (scrollMax st.savedlines w L)) := by
  simp [consoleScroll, displace]
  ring_nf

theorem scroll_iter_true (w L : ℕ) (st : CState) (n : ℕ)
    (h0 : 0 ≤ st.scrollingindex) (h1 : st.scrollingindex ≤ scrollMax st.savedlines w L) :
    ((fun s => consoleScroll w L s true)^[n] st).savedlines = st.savedlines ∧
    ((fun s => consoleScroll w L s true)^[n] st).scrollingindex
      = min (st.scrollingindex + n) (scrollMax st.savedlines w L) := by
  induction n with
  | zero =>
    refine ⟨rfl, ?_⟩
    rw [Function.iterate_zero_apply]
    omega
  | succ n ih =>
    obtain ⟨hs, hi⟩ := ih
    rw [Function.iterate_succ_apply']
    refine ⟨by rw [consoleScroll_savedlines, hs], ?_⟩
    rw [consoleScroll_true, hs, hi]
    have hM : 0 ≤ scrollMax st.savedlines w L := le_max_left _ _
    push_cast
    omega

theorem scroll_iter_false (w L : ℕ) (st : CState) (n : ℕ)
    (h0 : 0 ≤ st.scrollingindex) (h1 : st.scrollingindex ≤ scrollMax st.savedlines w L) :
    ((fun s => consoleScroll w L s false)^[n] st).savedlines = st.savedlines ∧
    ((fun s => consoleScroll w L s false)^[n] st).scrollingindex
      = max (st.scrollingindex - n) 0 := by
  induction n with
  | zero =>
    refine ⟨rfl, ?_⟩
    rw [Function.iterate_zero_apply]
    omega
  | succ n ih =>
    obtain ⟨hs, hi⟩ := ih
    rw [Function.iterate_succ_apply']
    refine ⟨by rw [consoleScroll_savedlines, hs], ?_⟩
    rw [consoleScroll_false, hs, hi]
    have hM : 0 ≤ scrollMax st.savedlines w L := le_max_left _ _
    push_cast
    omega

/-- Claim C9: from any in-range scroll state, one scroll in either direction
keeps the scroll index in `[0, max(0, totalSegmentCount - maxLines)]`;
scrolling toward older content `N` times with `N` exceeding
`totalSegmentCount` pins the index at the upper bound, and scrolling toward
newer content equally many times returns it to 0. -/
theorem scroll_clamp (w L : ℕ) (st : CState) (N : ℕ)
    (h0 : 0 ≤ st.scrollingindex) (h1 : st.scrollingindex ≤ scrollMax st.savedlines w L)
    (hN : (totalSegmentCount w st.savedlines : ℤ) < N) :
    (0 ≤ (consoleScroll w L st true).scrollingindex ∧
      (consoleScroll w L st true).scrollingindex ≤ scrollMax st.savedlines w L) ∧
    (0 ≤ (consoleScroll w L st false).scrollingindex ∧
      (consoleScroll w L st false).scrollingindex ≤ scrollMax st.savedlines w L) ∧
    ((fun s => consoleScroll w L s true)^[N] st).scrollingindex
      = scrollMax st.savedlines w L ∧
    ((fun s => consoleScroll w L s false)^[N]
        ((fun s => consoleScroll w L s true)^[N] st)).scrollingindex = 0 := by
  have hM0 : 0 ≤ scrollMax st.savedlines w L := le_max_left _ _
  have hMt : scrollMax st.savedlines w L ≤ (totalSegmentCount w st.savedlines : ℤ) := by
    rw [scrollMax]
    have : (0 : ℤ) ≤ (totalSegmentCount w st.savedlines : ℤ) := Int.ofNat_nonneg _
    omega
  obtain ⟨hs1, hi1⟩ := scroll_iter_true w L st N h0 h1
  have hiN : ((fun s => consoleScroll w L s true)^[N] st).scrollingindex
      = scrollMax st.savedlines w L := by
    rw [hi1]; omega
  refine ⟨⟨?_, ?_⟩, ⟨?_, ?_⟩, hiN, ?_⟩
  · rw [consoleScroll_true]; omega
  · rw [consoleScroll_true]; omega
  · rw [consoleScroll_false]; omega
  · rw [consoleScroll_false]; omega
  · obtain ⟨hs2, hi2⟩ := scroll_iter_false w L ((fun s => consoleScroll w L s true)^[N] st) N
      (by rw [hiN]; exact hM0) (by rw [hiN, hs1])
    rw [hi2, hiN]
    omega

/-- A concrete scroll scenario: one saved line wrapping to two segments at
width 1, one visible line. -/
def c9State : CState :=
  { savedlines := [(['a', 'b'], whiteColor)], visible := [emptyLine], inputlines := [],
    callbackindex := -1, scrollingindex := 0 }

/-- Witness for C9 at `w = 1`, `L = 1`, `N = 3` on `c9State`
(`totalSegmentCount = 2`, upper bound 1). -/
theorem scroll_clamp_witness :
    (0 ≤ c9State.scrollingindex ∧
      c9State.scrollingindex ≤ scrollMax c9State.savedlines 1 1 ∧
      (totalSegmentCount 1 c9State.savedlines : ℤ) < 3) ∧
    (((fun s => consoleScroll 1 1 s true)^[3] c9State).scrollingindex
        = scrollMax c9State.savedlines 1 1 ∧
      ((fun s => consoleScroll 1 1 s false)^[3]
          ((fun s => consoleScroll 1 1 s true)^[3] c9State)).scrollingindex = 0) :=
  ⟨⟨by decide, by decide, by decide⟩,
    ⟨(scroll_clamp 1 1 c9State 3 (by decide) (by decide) (by decide)).2.2.1,
      (scroll_clamp 1 1 c9State 3 (by decide) (by decide) (by decide)).2.2.2⟩⟩

/- ------------------------------------------------------------------ -/
/- Claim C10: output(None) appends nothing.                            -/
/- ------------------------------------------------------------------ -/

/-- Claim C10: invoking the output operation with `output = None` appends no
entry — the saved-lines history and the input history are exactly the same
before and after the call, and no error is raised (only the viewport is
re-rendered by the initial `redistribute`). -/
theorem output_none_noop (w L : ℕ) (st : CState) (c : RGBA) (mode : Mode) :
    (consoleOutput w L st none c mode).1.savedlines = st.savedlines ∧
    (consoleOutput w L st none c mode).1.inputlines = st.inputlines ∧
    (consoleOutput w L st none c mode).2 = none :=
  ⟨rfl, rfl, rfl⟩

end Pconsole
